import Mathlib

/-!
Shallow embedding of the task-chain execution engine and agent dispatch layer
of the `pyr-dev` editor assistant.

Sources embedded:
* `src/agent/taskManager.ts` — `TaskChain`, `TaskManager` (create / execute /
  cancel / delete / progress, task-type inference);
* `baseAgent.ts` — `AgentTask`, `AgentContext`, `BaseAgent.executeTask`,
  `BaseAgent.addToConversation`;
* `pyrDevAgent.ts` — the `fix` capability and `applyFixes`;
* `promptTemplates.ts` — `formatPrompt` and the prompt template strings.

Modelling conventions: JavaScript promises that resolve with a value or reject
with an error message become `Except String _`; in-place object mutation
becomes explicit state passing (a function returns the updated object);
`Date` timestamps become `Nat` instants supplied by the caller; the
`Map`-backed chain store becomes a function `String → Option TaskChain`.
Task results have type `any` in the source, so the embedding is parametric in
a result type `V`.  The write-only `activeTasks` registry (set before each
dispatch, deleted in a `finally`) is not observed by anything modelled here
and is omitted.
-/

inductive TStatus where
  | pending
  | running
  | completed
  | failed
deriving DecidableEq, Repr

/-- `AgentContext` from `baseAgent.ts`: an optional-field bag describing what
code or situation an operation is about. -/
structure AgentContext (V : Type) where
  code : Option String := none
  language : Option String := none
  selection : Option String := none
  filePath : Option String := none
  projectContext : Option String := none
  previousResults : Option (List V) := none
deriving DecidableEq

/-- `AgentTask` from `baseAgent.ts`. -/
structure AgentTask (V : Type) where
  id : String
  type : String
  description : String
  context : AgentContext V
  status : TStatus
  result : Option V := none
  error : Option String := none
  createdAt : Nat
  completedAt : Option Nat := none
deriving DecidableEq

/-- `TaskChain` from `taskManager.ts`. -/
structure TaskChain (V : Type) where
  id : String
  name : String
  tasks : List (AgentTask V)
  status : TStatus
  createdAt : Nat
  completedAt : Option Nat := none
  results : List V
deriving DecidableEq

/-- An agent capability (`AgentCapability.execute` in `baseAgent.ts`): an
asynchronous operation on a context with optional parameters (for the `fix`
capability the parameters are issue-description strings), resolving with a
value or rejecting with an error message. -/
abbrev Capability (V : Type) := AgentContext V → Option (List String) → Except String V

/-- The capability registry of an agent (`capabilities : Map` in the source). -/
abbrev Caps (V : Type) := String → Option (Capability V)

/-- The `taskChains` map of `TaskManager`. -/
abbrev ChainMap (V : Type) := String → Option (TaskChain V)

def mapSet {V : Type} (m : ChainMap V) (k : String) (c : TaskChain V) : ChainMap V :=
  fun x => if x = k then some c else m x

def mapDel {V : Type} (m : ChainMap V) (k : String) : ChainMap V :=
  fun x => if x = k then none else m x

def emptyChains (V : Type) : ChainMap V := fun _ => none

/-- JavaScript `haystack.includes(needle)` substring test. -/
def includesSub (s sub : String) : Bool := decide (sub.data <:+: s.data)

/-- JavaScript `s.toLowerCase()` (ASCII range, which is all the source uses):
lower-case every character. -/
def jsToLower (s : String) : String := { data := s.data.map Char.toLower }

/-- `TaskManager.inferTaskType` (taskManager.ts lines 42–56): keyword
classification of a task description, first match wins. -/
def inferTaskType (description : String) : String :=
  let lowerDesc := jsToLower description
  if includesSub lowerDesc "analyze" || includesSub lowerDesc "check" || includesSub lowerDesc "review" then
    "analyze"
  else if includesSub lowerDesc "fix" || includesSub lowerDesc "correct" || includesSub lowerDesc "repair" then
    "fix"
  else if includesSub lowerDesc "generate" || includesSub lowerDesc "create" || includesSub lowerDesc "write" then
    "generate"
  else if includesSub lowerDesc "explain" || includesSub lowerDesc "describe" || includesSub lowerDesc "clarify" then
    "explain"
  else
    "general"

/-- `TaskManager.createTaskChain` (taskManager.ts lines 17–40).  The random
chain id generated from `Date.now()` and `Math.random()` is a parameter. -/
def createTaskChain {V : Type} (chainId name : String) (taskDescriptions : List String)
    (initialContext : Option (AgentContext V)) (now : Nat) (m : ChainMap V) :
    ChainMap V × TaskChain V :=
  let tasks : List (AgentTask V) := taskDescriptions.enum.map (fun p =>
    { id := chainId ++ "-task-" ++ toString p.1
      type := inferTaskType p.2
      description := p.2
      context := initialContext.getD {}
      status := TStatus.pending
      createdAt := now })
  let taskChain : TaskChain V :=
    { id := chainId
      name := name
      tasks := tasks
      status := TStatus.pending
      createdAt := now
      results := [] }
  (mapSet m chainId taskChain, taskChain)

/-- Body of `BaseAgent.executeTask` after the initial `task.status = "running"`
(baseAgent.ts lines 46–63): the `try` block looks up the capability, throws on
an unknown type, awaits the capability, and stores result or error on the
task; the thrown error is re-raised. -/
def executeTaskBody {V : Type} (caps : Caps V) (task : AgentTask V) (now : Nat) :
    AgentTask V × Except String V :=
  match caps task.type with
  | none =>
    let msg := "Unknown task type: " ++ task.type
    ({ task with status := TStatus.failed, error := some msg, completedAt := some now },
      Except.error msg)
  | some capability =>
    match capability task.context none with
    | Except.ok result =>
      ({ task with status := TStatus.completed, result := some result, completedAt := some now },
        Except.ok result)
    | Except.error e =>
      ({ task with status := TStatus.failed, error := some e, completedAt := some now },
        Except.error e)

/-- `BaseAgent.executeTask` (baseAgent.ts lines 43–64): first sets the task
status to `running`, then runs the body.  The capability is invoked with the
task context only — the method accepts no parameters argument, so
`capability.execute(task.context)` leaves the capability parameters absent. -/
def executeTask {V : Type} (caps : Caps V) (task : AgentTask V) (now : Nat) :
    AgentTask V × Except String V :=
  executeTaskBody caps { task with status := TStatus.running } now

def setPreviousResults {V : Type} (ctx : AgentContext V) (rs : List V) : AgentContext V :=
  { ctx with previousResults := some rs }

/-- The task loop of `TaskManager.executeTaskChain` (taskManager.ts lines
68–86): each task gets the accumulated results injected into its context,
is executed, and on success its result is appended; the first failure stops
the loop and is reported.  Returns the updated tasks, the accumulated
results, and the propagated error if any. -/
def execLoop {V : Type} (caps : Caps V) (now : Nat) :
    List (AgentTask V) → List V → List (AgentTask V) × List V × Option String
  | [], acc => ([], acc, none)
  | t :: ts, acc =>
    match executeTask caps { t with context := setPreviousResults t.context acc } now with
    | (t1, Except.ok r) =>
      let rest := execLoop caps now ts (acc ++ [r])
      (t1 :: rest.1, rest.2.1, rest.2.2)
    | (t1, Except.error e) => (t1 :: ts, acc, some e)

/-- `TaskManager.executeTaskChain` (taskManager.ts lines 58–97), summarised at
its return/throw point: a missing chain rejects before any mutation; otherwise
the chain goes `running`, the loop runs, successful results are appended to
`chain.results`, and the chain ends `completed` (resolving with the results)
or `failed` (re-raising the first error). -/
def executeTaskChain {V : Type} (caps : Caps V) (now : Nat) (m : ChainMap V)
    (chainId : String) : ChainMap V × Except String (List V) :=
  match m chainId with
  | none => (m, Except.error ("Task chain " ++ chainId ++ " not found"))
  | some chain =>
    let r := execLoop caps now chain.tasks []
    match r.2.2 with
    | none =>
      let done : TaskChain V :=
        { chain with
            tasks := r.1
            results := chain.results ++ r.2.1
            status := TStatus.completed
            completedAt := some now }
      (mapSet m chainId done, Except.ok r.2.1)
    | some e =>
      let failedChain : TaskChain V :=
        { chain with
            tasks := r.1
            results := chain.results ++ r.2.1
            status := TStatus.failed
            completedAt := some now }
      (mapSet m chainId failedChain, Except.error e)

/-- The per-task branch of `TaskManager.cancelTaskChain` (taskManager.ts lines
122–128): a `running` task becomes `failed` with the cancellation sentinel
error and a completion stamp; any other task is untouched. -/
def cancelTask {V : Type} (now : Nat) (t : AgentTask V) : AgentTask V :=
  if t.status = TStatus.running then
    { t with status := TStatus.failed, error := some "Cancelled by user", completedAt := some now }
  else t

/-- `TaskManager.cancelTaskChain` (taskManager.ts lines 115–134). -/
def cancelTaskChain {V : Type} (now : Nat) (m : ChainMap V) (chainId : String) :
    ChainMap V × Bool :=
  match m chainId with
  | none => (m, false)
  | some chain =>
    if chain.status = TStatus.running then
      let chain1 : TaskChain V :=
        { chain with
            tasks := chain.tasks.map (cancelTask now)
            status := TStatus.failed
            completedAt := some now }
      (mapSet m chainId chain1, true)
    else (m, false)

/-- `TaskManager.deleteTaskChain` (taskManager.ts lines 136–138). -/
def deleteTaskChain {V : Type} (m : ChainMap V) (chainId : String) : ChainMap V × Bool :=
  match m chainId with
  | none => (m, false)
  | some _ => (mapDel m chainId, true)

def countCompleted {V : Type} (tasks : List (AgentTask V)) : Nat :=
  (tasks.filter fun t => t.status == TStatus.completed).length

/-- A JavaScript `number` as produced by dividing two non-negative counts:
a finite rational, or the non-finite values `NaN` (from `0/0`) and
`Infinity` (from `k/0`, `k > 0`). -/
inductive JSNum where
  | nan
  | inf
  | num (q : ℚ)
deriving DecidableEq, Repr

/-- JavaScript division of two natural counts. -/
def jsDivNat (a b : Nat) : JSNum :=
  if b = 0 then (if a = 0 then JSNum.nan else JSNum.inf)
  else JSNum.num ((a : ℚ) / (b : ℚ))

/-- `TaskManager.getTaskProgress` (taskManager.ts lines 179–187): `0` for a
missing chain, otherwise `completedTasks / chain.tasks.length` — with no
guard against a zero task count. -/
def getTaskProgress {V : Type} (m : ChainMap V) (chainId : String) : JSNum :=
  match m chainId with
  | none => JSNum.num 0
  | some chain => jsDivNat (countCompleted chain.tasks) chain.tasks.length

inductive Role where
  | system
  | user
  | assistant
deriving DecidableEq, Repr

/-- `LLMMessage` from `llmProvider.ts`. -/
structure LLMMessage where
  role : Role
  content : String
deriving DecidableEq, Repr

/-- `BaseAgent.addToConversation` (baseAgent.ts lines 84–91): append, then if
the history exceeds 20 entries keep only the last 20 (`slice(-20)`). -/
def addToConversation (history : List LLMMessage) (role : Role) (content : String) :
    List LLMMessage :=
  let h := history ++ [{ role := role, content := content }]
  if h.length > 20 then h.drop (h.length - 20) else h

deriving instance DecidableEq for Except

/-! ### Spec-side comparison definition for task-type inference

The specification describes task-type inference as a priority-ordered keyword
table with first match winning.  `specInferTaskType` transcribes that table so
it can be compared with the source-side `inferTaskType`. -/

def taskTypeKeywordTable : List (List String × String) :=
  [(["analyze", "check", "review"], "analyze"),
   (["fix", "correct", "repair"], "fix"),
   (["generate", "create", "write"], "generate"),
   (["explain", "describe", "clarify"], "explain")]

def firstKeywordMatch (lowerDesc : String) : List (List String × String) → String
  | [] => "general"
  | (ks, ty) :: rest =>
    if ks.any (fun k => includesSub lowerDesc k) then ty else firstKeywordMatch lowerDesc rest

def specInferTaskType (d : String) : String :=
  firstKeywordMatch (jsToLower d) taskTypeKeywordTable

/-! ### Environment assumption

The spec requires provider failures to carry a human-readable message; the
task-failure properties below assume every capability rejection carries a
non-empty message (the unknown-task-type message generated by the agent
itself is non-empty by construction). -/

def EnvMsgsNonEmpty {V : Type} (caps : Caps V) : Prop :=
  ∀ ty cap, caps ty = some cap →
    ∀ ctx p e, cap ctx p = Except.error e → e ≠ ""

/-! ### Engine operations as a transition system

The Task Chain Engine exposes create / execute / cancel / delete as mutations
of the chain map; `applyOp` is their combined transition function, used to
state invariants over every sequence of engine operations. -/

def allPending {V : Type} (tasks : List (AgentTask V)) : Prop :=
  ∀ t ∈ tasks, t.status = TStatus.pending

/-- The chain-level invariant claimed by the spec: the result list never
outgrows the set of completed tasks (the second clause records that a
never-executed chain has no results, which makes the invariant inductive). -/
def ChainInv {V : Type} (c : TaskChain V) : Prop :=
  c.results.length ≤ countCompleted c.tasks ∧ (allPending c.tasks → c.results = [])

def MapInv {V : Type} (m : ChainMap V) : Prop :=
  ∀ cid c, m cid = some c → ChainInv c

inductive EngineOp (V : Type) where
  | create (chainId name : String) (descs : List String)
      (ictx : Option (AgentContext V)) (now : Nat)
  | exec (chainId : String) (caps : Caps V) (now : Nat)
  | cancel (chainId : String) (now : Nat)
  | del (chainId : String)

def applyOp {V : Type} (m : ChainMap V) : EngineOp V → ChainMap V
  | EngineOp.create cid name descs ictx now => (createTaskChain cid name descs ictx now m).1
  | EngineOp.exec cid caps now => (executeTaskChain caps now m cid).1
  | EngineOp.cancel cid now => (cancelTaskChain now m cid).1
  | EngineOp.del cid => (deleteTaskChain m cid).1

/-- Side condition for an operation: executing a chain is only covered when
the chain has never been executed (all its tasks still `pending`); the other
operations carry no condition. -/
def WfOp {V : Type} (m : ChainMap V) : EngineOp V → Prop
  | EngineOp.exec cid _ _ => ∀ c, m cid = some c → allPending c.tasks
  | _ => True

inductive WfOps {V : Type} : ChainMap V → List (EngineOp V) → Prop
  | nil (m : ChainMap V) : WfOps m []
  | cons (m : ChainMap V) (op : EngineOp V) (ops : List (EngineOp V)) :
      WfOp m op → WfOps (applyOp m op) ops → WfOps m (op :: ops)

/-- The states of a chain execution observable at its suspension points: the
engine suspends exactly at each capability invocation (`await
agent.executeTask`), at which point the current task has been set `running`
and earlier tasks are finalised with their results accumulated.  Each entry
is (task list, accumulated results) as visible at one suspension point. -/
def execTrace {V : Type} (caps : Caps V) (now : Nat) :
    List (AgentTask V) → List V → List (List (AgentTask V) × List V)
  | [], _ => []
  | t :: ts, acc =>
    let t1 : AgentTask V :=
      { t with context := setPreviousResults t.context acc, status := TStatus.running }
    ((t1 :: ts, acc)) ::
      match executeTaskBody caps t1 now with
      | (t2, Except.ok r) =>
        (execTrace caps now ts (acc ++ [r])).map (fun s => (t2 :: s.1, s.2))
      | (_, Except.error _) => []

/-! ### The agent's `fix` capability and `applyFixes` (pyrDevAgent.ts) -/

/-- `CodeIssue` from `codeAnalyzer.ts` (the fields `applyFixes` reads;
severity and category are string literal unions in the source). -/
structure CodeIssue where
  id : String := ""
  severity : String
  message : String
  line : Nat
  column : Nat := 0
  category : String := ""
  fixable : Bool := false
deriving DecidableEq, Repr

/-- `PromptTemplates.SYSTEM_PROMPT` (promptTemplates.ts). -/
def SYSTEM_PROMPT : String :=
  "You are Pyr Dev, an advanced AI code assistant. You help developers write, debug, and improve code.\n\nKey capabilities:\n- Analyze code for bugs, performance issues, and best practices\n- Generate high-quality code from natural language descriptions\n- Explain complex code in simple terms\n- Suggest improvements and optimizations\n- Support multiple programming languages\n\nGuidelines:\n- Provide clear, concise explanations\n- Include code examples when helpful\n- Focus on best practices and clean code\n- Be specific about potential issues and solutions\n- Consider performance, security, and maintainability"

/-- `PromptTemplates.CODE_FIX_PROMPT` (promptTemplates.ts); `\x7b`/`\x7d` are
the literal braces of the `{issues}` and `{code}` placeholders. -/
def CODE_FIX_PROMPT : String :=
  "Fix the following issues in the code:\nIssues: \x7bissues\x7d\n\nOriginal Code:\n\x7bcode\x7d\n\nProvide the corrected code with explanations for each fix."

/-- Replace every (non-overlapping, left-to-right) occurrence of `pat` by
`repl`, as JavaScript `replace(new RegExp(pattern, \"g\"), value)` does for a
literal pattern.  The fuel argument is the length of the scanned list: every
step consumes at least one character, so `l.length` steps always suffice. -/
def replaceListFuel (repl : List Char) : Nat → List Char → List Char → List Char
  | 0, l, _ => l
  | _ + 1, [], _ => []
  | fuel + 1, c :: rest, pat =>
    if pat ≠ [] ∧ pat <+: (c :: rest) then
      repl ++ replaceListFuel repl fuel ((c :: rest).drop pat.length) pat
    else
      c :: replaceListFuel repl fuel rest pat

def jsReplaceAll (s pat repl : String) : String :=
  { data := replaceListFuel repl.data s.data.length s.data pat.data }

/-- `PromptTemplates.formatPrompt` (promptTemplates.ts lines 139–145):
substitute each `{key}` placeholder globally, in entry order. -/
def formatPrompt (template : String) (vars : List (String × String)) : String :=
  vars.foldl (fun formatted kv => jsReplaceAll formatted ("\x7b" ++ kv.1 ++ "\x7d") kv.2) template

/-- The `fix` capability registered by `PyrDevAgent.initializeCapabilities`
(pyrDevAgent.ts lines 43–65).  `llm` abstracts
`llmProvider.generateResponse`, returning the response content. -/
def fixCapability (llm : List LLMMessage → Except String String) : Capability String :=
  fun context parameters =>
    match context.code with
    | none => Except.error "No code provided for fixing"
    | some code =>
      let issues := parameters.getD []
      let prompt := formatPrompt CODE_FIX_PROMPT
        [("code", code), ("issues", String.intercalate "\n" issues)]
      let messages : List LLMMessage :=
        [{ role := Role.system, content := SYSTEM_PROMPT },
         { role := Role.user, content := prompt }]
      llm messages

/-- The slice of `PyrDevAgent`'s capability registry relevant to `applyFixes`
(the other capabilities dispatch to other task types and are not involved). -/
def pyrCapabilities (llm : List LLMMessage → Except String String) : Caps String :=
  fun ty => if ty = "fix" then some (fixCapability llm) else none

/-- The formatted issue descriptions `applyFixes` builds
(pyrDevAgent.ts line 181). -/
def issueDescriptions (issues : List CodeIssue) : List String :=
  issues.map (fun issue =>
    issue.severity ++ ": " ++ issue.message ++ " (Line " ++ toString issue.line ++ ")")

/-- `PyrDevAgent.applyFixes` (pyrDevAgent.ts lines 179–196).  The source
passes `{ issues: issueDescriptions }` as a second argument to
`this.executeTask`, but `BaseAgent.executeTask` declares a single `task`
parameter and invokes `capability.execute(task.context)` with no parameters
argument, so the extra argument never reaches the capability; accordingly the
call here carries the task alone. -/
def applyFixes (llm : List LLMMessage → Except String String) (code : String)
    (issues : List CodeIssue) (now : Nat) : AgentTask String × Except String String :=
  let context : AgentContext String := { code := some code }
  let _descriptions := issueDescriptions issues
  executeTask (pyrCapabilities llm)
    { id := "fix-" ++ toString now
      type := "fix"
      description := "Fix code issues"
      context := context
      status := TStatus.pending
      createdAt := now } now

/-- A provider that answers with the content of the last message it was sent,
used to observe the prompt that reaches the provider. -/
def lastContentProvider : List LLMMessage → Except String String :=
  fun msgs => Except.ok ((msgs.map (fun mm => mm.content)).getLastD "")

/-! ### Concrete fixtures used by witnesses and counterexamples -/

def capsAllOk : Caps String :=
  fun ty => if ty = "general" then some (fun _ _ => Except.ok "done") else none

def capsFailGeneral : Caps String :=
  fun ty => if ty = "general" then some (fun _ _ => Except.error "boom") else none

def demoChainMap : ChainMap String :=
  (createTaskChain "c" "demo" ["Do something"] none 0 (emptyChains String)).1

def demoChain : TaskChain String :=
  (createTaskChain "c" "demo" ["Do something"] none 0 (emptyChains String)).2

def demoEmptyChain : TaskChain String :=
  (createTaskChain "e" "demo" [] none 0 (emptyChains String)).2

def sampleTaskNope : AgentTask String :=
  { id := "x", type := "nope", description := "d", context := {},
    status := TStatus.pending, createdAt := 0 }

def sampleTaskGeneral : AgentTask String :=
  { id := "y", type := "general", description := "d", context := {},
    status := TStatus.pending, createdAt := 0 }

def demoChainMapTwo : ChainMap String :=
  (createTaskChain "f" "demo" ["Do something", "Do more"] none 0 (emptyChains String)).1

def demoEmptyChainMap : ChainMap String :=
  (createTaskChain "e" "demo" [] none 0 (emptyChains String)).1

def runningTask : AgentTask String :=
  { id := "t0", type := "general", description := "d", context := {},
    status := TStatus.running, createdAt := 0 }

def pendingTask : AgentTask String :=
  { id := "t1", type := "general", description := "d", context := {},
    status := TStatus.pending, createdAt := 0 }

def runningChain : TaskChain String :=
  { id := "r", name := "demo", tasks := [runningTask, pendingTask],
    status := TStatus.running, createdAt := 0, results := [] }

def runningChainMap : ChainMap String :=
  mapSet (emptyChains String) "r" runningChain

def completedChain : TaskChain String :=
  { id := "k", name := "demo", tasks := [], status := TStatus.completed,
    createdAt := 0, results := [] }

def traceSampleState : List (AgentTask String) × List String :=
  ([{ sampleTaskGeneral with
        context := setPreviousResults sampleTaskGeneral.context []
        status := TStatus.running }], [])

def demoOps : List (EngineOp String) :=
  [EngineOp.create "c" "demo" ["Do something"] none 0,
   EngineOp.exec "c" capsAllOk 1]

def demoOpsReexec : List (EngineOp String) :=
  [EngineOp.create "c" "demo" ["Do something"] none 0,
   EngineOp.exec "c" capsAllOk 1,
   EngineOp.exec "c" capsAllOk 2]

def completedChainMap : ChainMap String :=
  mapSet (emptyChains String) "k" completedChain

/-!
## Theorems
-/

/-- C7 counterexample: the description "Repair the null check" contains the
keyword "check", which belongs to the first (analyze) priority group, so the
source classifies it as "analyze", not "fix" as claimed. -/
theorem inferTaskType_repair_maps_to_analyze :
    inferTaskType "Repair the null check" = "analyze"
  ∧ inferTaskType "Repair the null check" ≠ "fix" := by
  decide

/-- C7 (amended): task-type inference is the deterministic case-insensitive
first-match-wins keyword classification of the spec's priority table, and the
example descriptions map as the table dictates — with "Repair the null check"
mapping to "analyze" (its "check" matches the first priority group before
"repair" is considered), not "fix". -/
theorem inferTaskType_keyword_priority :
    (∀ d, inferTaskType d = specInferTaskType d)
  ∧ inferTaskType "Review this function for bugs" = "analyze"
  ∧ inferTaskType "Write a sorting function" = "generate"
  ∧ inferTaskType "Repair the null check" = "analyze"
  ∧ inferTaskType "Describe what this does" = "explain"
  ∧ inferTaskType "Do something" = "general" := by
  refine ⟨fun d => ?_, by decide, by decide, by decide, by decide, by decide⟩
  simp only [inferTaskType, specInferTaskType, firstKeywordMatch, taskTypeKeywordTable,
    List.any_cons, List.any_nil, Bool.or_false, Bool.or_assoc]

/-- C5: the agent's single-task executor first moves the task to `running`;
an unregistered task type fails the task with the unknown-task-type message
stored and stamped; a resolving capability completes the task with the
result stored and returned; a rejecting capability fails the task with the
message stored and the error re-raised. -/
theorem executeTask_dispatch_spec {V : Type} (caps : Caps V) (t : AgentTask V) (now : Nat) :
    (executeTask caps t now = executeTaskBody caps { t with status := TStatus.running } now)
  ∧ (caps t.type = none → executeTask caps t now =
      ({ t with
          status := TStatus.failed
          error := some ("Unknown task type: " ++ t.type)
          completedAt := some now },
        Except.error ("Unknown task type: " ++ t.type)))
  ∧ (∀ cap r, caps t.type = some cap → cap t.context none = Except.ok r →
      executeTask caps t now =
        ({ t with
            status := TStatus.completed
            result := some r
            completedAt := some now },
          Except.ok r))
  ∧ (∀ cap e, caps t.type = some cap → cap t.context none = Except.error e →
      executeTask caps t now =
        ({ t with
            status := TStatus.failed
            error := some e
            completedAt := some now },
          Except.error e)) := by
  refine ⟨rfl, ?_, ?_, ?_⟩
  · intro h
    simp [executeTask, executeTaskBody, h]
  · intro cap r hc hr
    simp [executeTask, executeTaskBody, hc, hr]
  · intro cap e hc he
    simp [executeTask, executeTaskBody, hc, he]

/-- Witness for C5: concrete unknown-type and successful dispatches. -/
theorem executeTask_dispatch_spec_witness :
    executeTask capsAllOk sampleTaskNope 3 =
      ({ sampleTaskNope with
          status := TStatus.failed
          error := some ("Unknown task type: " ++ sampleTaskNope.type)
          completedAt := some 3 },
        Except.error ("Unknown task type: " ++ sampleTaskNope.type))
  ∧ executeTask capsAllOk sampleTaskGeneral 3 =
      ({ sampleTaskGeneral with
          status := TStatus.completed
          result := some "done"
          completedAt := some 3 },
        Except.ok "done") :=
  ⟨(executeTask_dispatch_spec capsAllOk sampleTaskNope 3).2.1 rfl,
   (executeTask_dispatch_spec capsAllOk sampleTaskGeneral 3).2.2.1
     (fun _ _ => Except.ok "done") "done" rfl rfl⟩

/-- C6 counterexample: a chain created with an empty task list makes
`getTaskProgress` compute `0 / 0`, which is JavaScript `NaN` — not the
claimed `0` and not a number in `[0, 1]`. -/
theorem getTaskProgress_empty_chain_is_nan :
    getTaskProgress demoEmptyChainMap "e" = JSNum.nan ∧ JSNum.nan ≠ JSNum.num 0 := by
  refine ⟨rfl, ?_⟩
  intro h
  cases h

/-- C6 (amended): `getTaskProgress` returns 0 for a nonexistent chain id, and
for a chain with at least one task it returns the completed-task fraction,
which lies in `[0, 1]`; but for a chain with zero tasks the unguarded
division `0 / 0` yields `NaN` rather than the claimed 0. -/
theorem getTaskProgress_spec {V : Type} (m : ChainMap V) (cid : String) :
    (m cid = none → getTaskProgress m cid = JSNum.num 0)
  ∧ (∀ chain, m cid = some chain → chain.tasks.length ≠ 0 →
      getTaskProgress m cid =
        JSNum.num ((countCompleted chain.tasks : ℚ) / (chain.tasks.length : ℚ))
      ∧ (0 : ℚ) ≤ (countCompleted chain.tasks : ℚ) / (chain.tasks.length : ℚ)
      ∧ (countCompleted chain.tasks : ℚ) / (chain.tasks.length : ℚ) ≤ 1)
  ∧ (∀ chain, m cid = some chain → chain.tasks.length = 0 →
      getTaskProgress m cid = JSNum.nan) := by
  refine ⟨?_, ?_, ?_⟩
  · intro h
    simp [getTaskProgress, h]
  · intro chain h hn
    have hcle : countCompleted chain.tasks ≤ chain.tasks.length :=
      List.length_filter_le _ _
    have hpos : (0 : ℚ) < (chain.tasks.length : ℚ) := by
      exact_mod_cast Nat.pos_of_ne_zero hn
    refine ⟨?_, ?_, ?_⟩
    · simp [getTaskProgress, h, jsDivNat, hn]
    · positivity
    · rw [div_le_one hpos]
      exact_mod_cast hcle
  · intro chain h h0
    have hc0 : countCompleted chain.tasks = 0 := by
      have hle := List.length_filter_le (fun t => t.status == TStatus.completed) chain.tasks
      simp only [countCompleted]
      omega
    simp [getTaskProgress, h, jsDivNat, h0, hc0]

/-- Witness for C6: the three branches at concrete chain maps. -/
theorem getTaskProgress_spec_witness :
    getTaskProgress (emptyChains String) "zzz" = JSNum.num 0
  ∧ getTaskProgress demoChainMap "c" =
      JSNum.num ((countCompleted demoChain.tasks : ℚ) / (demoChain.tasks.length : ℚ))
  ∧ (0 : ℚ) ≤ (countCompleted demoChain.tasks : ℚ) / (demoChain.tasks.length : ℚ)
  ∧ (countCompleted demoChain.tasks : ℚ) / (demoChain.tasks.length : ℚ) ≤ 1
  ∧ getTaskProgress demoEmptyChainMap "e" = JSNum.nan :=
  ⟨(getTaskProgress_spec (emptyChains String) "zzz").1 rfl,
   ((getTaskProgress_spec demoChainMap "c").2.1 demoChain rfl (by decide)).1,
   ((getTaskProgress_spec demoChainMap "c").2.1 demoChain rfl (by decide)).2.1,
   ((getTaskProgress_spec demoChainMap "c").2.1 demoChain rfl (by decide)).2.2,
   (getTaskProgress_spec demoEmptyChainMap "e").2.2 demoEmptyChain rfl (by decide)⟩

/-- C4: cancelling a running chain returns true, marks the chain failed with
a completion stamp, turns exactly the running tasks into failed tasks bearing
the cancellation sentinel error and a completion stamp, and leaves other
chains alone; cancelling a missing or non-running chain returns false and
leaves the chain map (hence every chain) unchanged. -/
theorem cancelTaskChain_spec {V : Type} (now : Nat) (m : ChainMap V) (cid : String) :
    (m cid = none → cancelTaskChain now m cid = (m, false))
  ∧ (∀ chain, m cid = some chain → chain.status ≠ TStatus.running →
      cancelTaskChain now m cid = (m, false))
  ∧ (∀ chain, m cid = some chain → chain.status = TStatus.running →
      (cancelTaskChain now m cid).2 = true
      ∧ (cancelTaskChain now m cid).1 cid =
          some { chain with
                   tasks := chain.tasks.map (cancelTask now)
                   status := TStatus.failed
                   completedAt := some now }
      ∧ (∀ t : AgentTask V, t.status = TStatus.running → cancelTask now t =
          { t with status := TStatus.failed, error := some "Cancelled by user",
                   completedAt := some now })
      ∧ (∀ t : AgentTask V, t.status ≠ TStatus.running → cancelTask now t = t)
      ∧ (∀ x, x ≠ cid → (cancelTaskChain now m cid).1 x = m x)) := by
  refine ⟨?_, ?_, ?_⟩
  · intro h
    simp [cancelTaskChain, h]
  · intro chain h hs
    simp [cancelTaskChain, h, hs]
  · intro chain h hs
    refine ⟨?_, ?_, ?_, ?_, ?_⟩
    · simp [cancelTaskChain, h, hs]
    · simp [cancelTaskChain, h, hs, mapSet]
    · intro t ht
      simp [cancelTask, ht]
    · intro t ht
      simp [cancelTask, ht]
    · intro x hx
      simp [cancelTaskChain, h, hs, mapSet, hx]

/-- Witness for C4: cancelling a concrete running chain, a completed chain,
and a missing id. -/
theorem cancelTaskChain_spec_witness :
    cancelTaskChain 5 (emptyChains String) "nope" = (emptyChains String, false)
  ∧ cancelTaskChain 5 completedChainMap "k" = (completedChainMap, false)
  ∧ (cancelTaskChain 5 runningChainMap "r").2 = true
  ∧ (cancelTaskChain 5 runningChainMap "r").1 "r" =
      some { runningChain with
               tasks := runningChain.tasks.map (cancelTask 5)
               status := TStatus.failed
               completedAt := some 5 } :=
  ⟨(cancelTaskChain_spec 5 (emptyChains String) "nope").1 rfl,
   (cancelTaskChain_spec 5 completedChainMap "k").2.1 completedChain rfl (by decide),
   ((cancelTaskChain_spec 5 runningChainMap "r").2.2 runningChain rfl rfl).1,
   ((cancelTaskChain_spec 5 runningChainMap "r").2.2 runningChain rfl rfl).2.1⟩

/-- C10: cancelling a running chain only mutates the tasks currently in
`running` status — a `pending` task is returned identically (same record,
so same `pending` status, same absent error and completion time) while the
chain itself moves to `failed`; so a cancelled chain can permanently hold
tasks still marked `pending`. -/
theorem cancelTaskChain_pending_frame {V : Type} (now : Nat) (m : ChainMap V) (cid : String)
    (chain : TaskChain V) (h : m cid = some chain) (hrun : chain.status = TStatus.running) :
    (cancelTaskChain now m cid).2 = true
  ∧ ∃ chain1, (cancelTaskChain now m cid).1 cid = some chain1
      ∧ chain1.status = TStatus.failed
      ∧ chain1.tasks.length = chain.tasks.length
      ∧ (∀ (i : Nat) (t : AgentTask V), chain.tasks[i]? = some t →
          t.status ≠ TStatus.running → chain1.tasks[i]? = some t)
      ∧ (∀ (i : Nat) (t : AgentTask V), chain.tasks[i]? = some t →
          t.status = TStatus.pending →
          ∃ t1 : AgentTask V, chain1.tasks[i]? = some t1 ∧ t1 = t
            ∧ t1.status = TStatus.pending
            ∧ t1.error = t.error ∧ t1.completedAt = t.completedAt) := by
  refine ⟨by simp [cancelTaskChain, h, hrun], ?_⟩
  refine ⟨{ chain with
              tasks := chain.tasks.map (cancelTask now)
              status := TStatus.failed
              completedAt := some now }, ?_, rfl, by simp, ?_, ?_⟩
  · simp [cancelTaskChain, h, hrun, mapSet]
  · intro i t hi ht
    simp only [List.getElem?_map, hi, Option.map_some]
    simp [cancelTask, ht]
  · intro i t hi ht
    have hnr : t.status ≠ TStatus.running := by
      rw [ht]
      intro hc
      cases hc
    refine ⟨t, ?_, rfl, ht, rfl, rfl⟩
    simp only [List.getElem?_map, hi, Option.map_some]
    simp [cancelTask, hnr]

/-- Witness for C10: cancelling the concrete running chain whose second task
is pending leaves that task untouched inside the now-failed chain. -/
theorem cancelTaskChain_pending_frame_witness :
    (cancelTaskChain 5 runningChainMap "r").2 = true
  ∧ ∃ chain1, (cancelTaskChain 5 runningChainMap "r").1 "r" = some chain1
      ∧ chain1.status = TStatus.failed
      ∧ chain1.tasks.length = runningChain.tasks.length
      ∧ (∀ (i : Nat) (t : AgentTask String), runningChain.tasks[i]? = some t →
          t.status ≠ TStatus.running → chain1.tasks[i]? = some t)
      ∧ (∀ (i : Nat) (t : AgentTask String), runningChain.tasks[i]? = some t →
          t.status = TStatus.pending →
          ∃ t1 : AgentTask String, chain1.tasks[i]? = some t1 ∧ t1 = t
            ∧ t1.status = TStatus.pending
            ∧ t1.error = t.error ∧ t1.completedAt = t.completedAt) :=
  cancelTaskChain_pending_frame 5 runningChainMap "r" runningChain rfl rfl

/-- The conversation history evolves as a sliding window: folding appends
over a history of at most 20 entries keeps exactly the most recent 20. -/
theorem addToConversation_foldl_window (ms : List LLMMessage) :
    ∀ h : List LLMMessage, h.length ≤ 20 →
      ms.foldl (fun acc msg => addToConversation acc msg.role msg.content) h =
        (h ++ ms).drop ((h ++ ms).length - 20) := by
  induction ms with
  | nil =>
    intro h hl
    have h0 : h.length - 20 = 0 := by omega
    simp [h0]
  | cons m ms ih =>
    intro h hl
    rw [List.foldl_cons]
    have hstep : addToConversation h m.role m.content =
        if (h ++ [m]).length > 20 then (h ++ [m]).drop ((h ++ [m]).length - 20)
        else h ++ [m] := rfl
    by_cases hlen : (h ++ [m]).length > 20
    · have hdl : ((h ++ [m]).drop ((h ++ [m]).length - 20)).length ≤ 20 := by
        rw [List.length_drop]
        omega
      have ihh := ih ((h ++ [m]).drop ((h ++ [m]).length - 20)) hdl
      rw [hstep, if_pos hlen, ihh]
      have hd : (h ++ [m]).length - 20 ≤ (h ++ [m]).length := by omega
      rw [← List.drop_append_of_le_length hd, List.drop_drop]
      have harr : (h ++ [m]) ++ ms = h ++ m :: ms := by simp
      rw [harr]
      congr 1
      rw [List.length_drop]
      simp only [List.length_append, List.length_cons, List.length_nil] at hlen ⊢
      omega
    · have hl2 : (h ++ [m]).length ≤ 20 := by omega
      have ihh := ih (h ++ [m]) hl2
      rw [hstep, if_neg hlen, ihh]
      have harr : (h ++ [m]) ++ ms = h ++ m :: ms := by simp
      rw [harr]

/-- C9: however many turns are appended, the conversation history built by
`addToConversation` from an empty history holds at most 20 entries, and is
exactly the most recent `min n 20` turns in order (oldest dropped first). -/
theorem conversationHistory_window (ms : List LLMMessage) :
    (ms.foldl (fun acc msg => addToConversation acc msg.role msg.content) []).length ≤ 20
  ∧ ms.foldl (fun acc msg => addToConversation acc msg.role msg.content) [] =
      ms.drop (ms.length - 20)
  ∧ (ms.foldl (fun acc msg => addToConversation acc msg.role msg.content) []).length =
      min ms.length 20 := by
  have h := addToConversation_foldl_window ms [] (by simp)
  simp only [List.nil_append] at h
  refine ⟨?_, h, ?_⟩
  · rw [h, List.length_drop]
    omega
  · rw [h, List.length_drop]
    omega

/-- Inversion for a successful dispatch: the returned task is the input task
finalised as completed. -/
theorem executeTaskBody_ok_inv {V : Type} {caps : Caps V} {t t' : AgentTask V}
    {now : Nat} {r : V} (h : executeTaskBody caps t now = (t', Except.ok r)) :
    t' = { t with status := TStatus.completed, result := some r, completedAt := some now } := by
  unfold executeTaskBody at h
  cases hc : caps t.type with
  | none =>
    rw [hc] at h
    simp at h
  | some cap =>
    rw [hc] at h
    dsimp only at h
    cases hr : cap t.context none with
    | ok r0 =>
      rw [hr] at h
      dsimp only at h
      simp only [Prod.mk.injEq, Except.ok.injEq] at h
      obtain ⟨h1, h2⟩ := h
      subst h2
      exact h1.symm
    | error e0 =>
      rw [hr] at h
      simp at h

/-- Inversion for a failed dispatch: the returned task is the input task
finalised as failed with the propagated message, which is either the
unknown-task-type message or a capability rejection. -/
theorem executeTaskBody_error_inv {V : Type} {caps : Caps V} {t t' : AgentTask V}
    {now : Nat} {e : String} (h : executeTaskBody caps t now = (t', Except.error e)) :
    t' = { t with status := TStatus.failed, error := some e, completedAt := some now }
    ∧ (e = "Unknown task type: " ++ t.type ∨
        ∃ cap, caps t.type = some cap ∧ cap t.context none = Except.error e) := by
  unfold executeTaskBody at h
  cases hc : caps t.type with
  | none =>
    rw [hc] at h
    simp only [Prod.mk.injEq, Except.error.injEq] at h
    obtain ⟨h1, h2⟩ := h
    subst h2
    exact ⟨h1.symm, Or.inl rfl⟩
  | some cap =>
    rw [hc] at h
    dsimp only at h
    cases hr : cap t.context none with
    | ok r0 =>
      rw [hr] at h
      simp at h
    | error e0 =>
      rw [hr] at h
      dsimp only at h
      simp only [Prod.mk.injEq, Except.error.injEq] at h
      obtain ⟨h1, h2⟩ := h
      subst h2
      exact ⟨h1.symm, Or.inr ⟨cap, rfl, hr⟩⟩

theorem executeTask_ok_inv {V : Type} {caps : Caps V} {t t' : AgentTask V}
    {now : Nat} {r : V} (h : executeTask caps t now = (t', Except.ok r)) :
    t' = { t with status := TStatus.completed, result := some r, completedAt := some now } := by
  unfold executeTask at h
  exact executeTaskBody_ok_inv h

theorem executeTask_error_inv {V : Type} {caps : Caps V} {t t' : AgentTask V}
    {now : Nat} {e : String} (h : executeTask caps t now = (t', Except.error e)) :
    t' = { t with status := TStatus.failed, error := some e, completedAt := some now }
    ∧ (e = "Unknown task type: " ++ t.type ∨
        ∃ cap, caps t.type = some cap ∧ cap t.context none = Except.error e) := by
  unfold executeTask at h
  exact executeTaskBody_error_inv h

/-- Inversion for a fully successful task loop: one result per task in task
order, every task finalised as completed with its own result stored. -/
theorem execLoop_ok_inv {V : Type} (caps : Caps V) (now : Nat) (ts : List (AgentTask V)) :
    ∀ acc ts' acc', execLoop caps now ts acc = (ts', acc', none) →
      ∃ rs : List V, acc' = acc ++ rs ∧ rs.length = ts.length ∧ ts'.length = ts.length ∧
        ∀ (i : Nat) (t : AgentTask V), ts[i]? = some t → ∃ r : V, rs[i]? = some r ∧
          ts'[i]? = some { t with
            context := setPreviousResults t.context (acc ++ rs.take i)
            status := TStatus.completed
            result := some r
            completedAt := some now } := by
  induction ts with
  | nil =>
    intro acc ts' acc' h
    simp only [execLoop, Prod.mk.injEq] at h
    obtain ⟨h1, h2, _⟩ := h
    subst h1
    subst h2
    refine ⟨[], by simp, rfl, rfl, ?_⟩
    intro i t hi
    simp at hi
  | cons t ts ih =>
    intro acc ts' acc' h
    simp only [execLoop] at h
    rcases hstep : executeTask caps { t with context := setPreviousResults t.context acc } now
      with ⟨t1, out⟩
    rw [hstep] at h
    cases out with
    | error e =>
      dsimp only at h
      simp only [Prod.mk.injEq] at h
      obtain ⟨-, -, herr⟩ := h
      cases herr
    | ok r =>
      dsimp only at h
      rcases hrec : execLoop caps now ts (acc ++ [r]) with ⟨ts1, acc1, err1⟩
      rw [hrec] at h
      simp only [Prod.mk.injEq] at h
      obtain ⟨hts, hacc, herr⟩ := h
      subst hts
      subst hacc
      cases herr
      obtain ⟨rs, hacc1, hlen, hlen', hget⟩ := ih (acc ++ [r]) ts1 acc1 hrec
      have ht1 : t1 = { t with
          context := setPreviousResults t.context acc
          status := TStatus.completed
          result := some r
          completedAt := some now } := executeTask_ok_inv hstep
      refine ⟨r :: rs, by simp [hacc1], by simp [hlen], by simp [hlen'], ?_⟩
      intro i t' hi
      cases i with
      | zero =>
        simp only [List.getElem?_cons_zero, Option.some.injEq] at hi
        subst hi
        refine ⟨r, by simp, ?_⟩
        simp only [List.getElem?_cons_zero, Option.some.injEq]
        rw [ht1]
        simp
      | succ i =>
        simp only [List.getElem?_cons_succ] at hi ⊢
        obtain ⟨r', hr', hts'⟩ := hget i t' hi
        refine ⟨r', hr', ?_⟩
        rw [hts']
        simp [List.append_assoc]

/-- Inversion for a failing task loop: some first index `k` fails; earlier
tasks are finalised completed with their results accumulated in order, the
failing task records the propagated error, and the tasks after `k` are left
exactly as they were (never attempted). -/
theorem execLoop_err_inv {V : Type} (caps : Caps V) (now : Nat) (ts : List (AgentTask V)) :
    ∀ acc ts' acc' e, execLoop caps now ts acc = (ts', acc', some e) →
      ∃ (k : Nat) (rs : List V) (tk : AgentTask V),
        k < ts.length ∧ rs.length = k ∧ acc' = acc ++ rs ∧ ts'.length = ts.length ∧
        (∀ (i : Nat) (t : AgentTask V), i < k → ts[i]? = some t → ∃ r, rs[i]? = some r ∧
          ts'[i]? = some { t with
            context := setPreviousResults t.context (acc ++ rs.take i)
            status := TStatus.completed
            result := some r
            completedAt := some now }) ∧
        ts[k]? = some tk ∧
        ts'[k]? = some { tk with
            context := setPreviousResults tk.context (acc ++ rs)
            status := TStatus.failed
            error := some e
            completedAt := some now } ∧
        (e = "Unknown task type: " ++ tk.type ∨
          ∃ cap ctx, caps tk.type = some cap ∧ cap ctx none = Except.error e) ∧
        (∀ i, k < i → ts'[i]? = ts[i]?) := by
  induction ts with
  | nil =>
    intro acc ts' acc' e h
    simp only [execLoop, Prod.mk.injEq] at h
    obtain ⟨-, -, herr⟩ := h
    cases herr
  | cons t ts ih =>
    intro acc ts' acc' e h
    simp only [execLoop] at h
    rcases hstep : executeTask caps { t with context := setPreviousResults t.context acc } now
      with ⟨t1, out⟩
    rw [hstep] at h
    cases out with
    | error e0 =>
      dsimp only at h
      simp only [Prod.mk.injEq, Option.some.injEq] at h
      obtain ⟨hts, hacc, herr⟩ := h
      subst hts
      subst hacc
      subst herr
      obtain ⟨ht1, hdisj⟩ := executeTask_error_inv hstep
      refine ⟨0, [], t, by simp, rfl, by simp, by simp, ?_, by simp, ?_, ?_, ?_⟩
      · intro i t' hik hi
        omega
      · simp only [List.getElem?_cons_zero, Option.some.injEq]
        rw [ht1]
        simp
      · rcases hdisj with h1 | ⟨cap, hc, hr⟩
        · exact Or.inl h1
        · exact Or.inr ⟨cap, setPreviousResults t.context acc, hc, hr⟩
      · intro i hi
        cases i with
        | zero => omega
        | succ j => simp
    | ok r =>
      dsimp only at h
      rcases hrec : execLoop caps now ts (acc ++ [r]) with ⟨ts1, acc1, err1⟩
      rw [hrec] at h
      simp only [Prod.mk.injEq] at h
      obtain ⟨hts, hacc, herr⟩ := h
      subst hts
      subst hacc
      rw [herr] at hrec
      obtain ⟨k, rs, tk, hk, hrsk, hacc1, hlen1, hpre, htk, htk', hdisj, hsuf⟩ :=
        ih (acc ++ [r]) ts1 acc1 e hrec
      have ht1 : t1 = { t with
          context := setPreviousResults t.context acc
          status := TStatus.completed
          result := some r
          completedAt := some now } := executeTask_ok_inv hstep
      refine ⟨k + 1, r :: rs, tk, by simp; omega, by simp [hrsk], by simp [hacc1],
        by simp [hlen1], ?_, by simpa using htk, ?_, hdisj, ?_⟩
      · intro i t' hik hi
        cases i with
        | zero =>
          simp only [List.getElem?_cons_zero, Option.some.injEq] at hi
          subst hi
          refine ⟨r, by simp, ?_⟩
          simp only [List.getElem?_cons_zero, Option.some.injEq]
          rw [ht1]
          simp
        | succ i =>
          simp only [List.getElem?_cons_succ] at hi ⊢
          obtain ⟨r', hr', hts'⟩ := hpre i t' (by omega) hi
          refine ⟨r', hr', ?_⟩
          rw [hts']
          simp [List.append_assoc]
      · simp only [List.getElem?_cons_succ]
        rw [htk']
        simp [List.append_assoc]
      · intro i hi
        cases i with
        | zero => omega
        | succ j =>
          simp only [List.getElem?_cons_succ]
          exact hsuf j (by omega)

/-- The tasks created by `createTaskChain`: one `pending` task per
description, in description order, with the inferred type and shared initial
context. -/
theorem createTaskChain_tasks_get {V : Type} (cid name : String) (descs : List String)
    (ictx : Option (AgentContext V)) (now : Nat) (m : ChainMap V) (i : Nat) (d : String)
    (hi : descs[i]? = some d) :
    (createTaskChain cid name descs ictx now m).2.tasks[i]? = some
      { id := cid ++ "-task-" ++ toString i
        type := inferTaskType d
        description := d
        context := ictx.getD {}
        status := TStatus.pending
        createdAt := now } := by
  simp [createTaskChain, List.getElem?_map, List.getElem?_enum, hi]

/-- C1: when every task of a freshly created chain executes without error,
`executeTaskChain` resolves with one result per task in task order (the
`i`-th result belongs to the task created from the `i`-th description), and
leaves the chain `completed` with `completedAt` stamped and as many stored
results as tasks. -/
theorem executeTaskChain_success_spec {V : Type} (caps : Caps V) (cid name : String)
    (descs : List String) (ictx : Option (AgentContext V)) (t0 t1 : Nat) (m0 : ChainMap V)
    (m2 : ChainMap V) (rs : List V)
    (hexec : executeTaskChain caps t1 (createTaskChain cid name descs ictx t0 m0).1 cid
      = (m2, Except.ok rs)) :
    rs.length = descs.length ∧
    ∃ chain2 : TaskChain V, m2 cid = some chain2
      ∧ chain2.status = TStatus.completed
      ∧ chain2.completedAt = some t1
      ∧ chain2.results = rs
      ∧ chain2.tasks.length = descs.length
      ∧ chain2.results.length = chain2.tasks.length
      ∧ (∀ (i : Nat) (d : String), descs[i]? = some d → ∃ (task : AgentTask V) (r : V),
          chain2.tasks[i]? = some task ∧ rs[i]? = some r
          ∧ task.description = d ∧ task.result = some r ∧ task.status = TStatus.completed
          ∧ task.completedAt = some t1) := by
  have hm1 : (createTaskChain cid name descs ictx t0 m0).1 cid
      = some (createTaskChain cid name descs ictx t0 m0).2 := by
    simp [createTaskChain, mapSet]
  unfold executeTaskChain at hexec
  rw [hm1] at hexec
  dsimp only at hexec
  rcases hloop : execLoop caps t1 (createTaskChain cid name descs ictx t0 m0).2.tasks []
    with ⟨ts', acc, err⟩
  rw [hloop] at hexec
  cases err with
  | some e =>
    dsimp only at hexec
    simp at hexec
  | none =>
    dsimp only at hexec
    simp only [Prod.mk.injEq, Except.ok.injEq] at hexec
    obtain ⟨hm2, hrs⟩ := hexec
    subst hrs
    obtain ⟨rs0, hacc, hlen, hlen', hget⟩ :=
      execLoop_ok_inv caps t1 (createTaskChain cid name descs ictx t0 m0).2.tasks [] ts' acc hloop
    simp only [List.nil_append] at hacc
    subst hacc
    have htasks_len : (createTaskChain cid name descs ictx t0 m0).2.tasks.length = descs.length := by
      simp [createTaskChain]
    have hres0 : (createTaskChain cid name descs ictx t0 m0).2.results = [] := by
      simp [createTaskChain]
    refine ⟨by omega, ?_⟩
    refine ⟨{ (createTaskChain cid name descs ictx t0 m0).2 with
                tasks := ts'
                results := (createTaskChain cid name descs ictx t0 m0).2.results ++ acc
                status := TStatus.completed
                completedAt := some t1 }, ?_, rfl, rfl, ?_, ?_, ?_, ?_⟩
    · rw [← hm2]
      simp [mapSet]
    · simp [hres0]
    · simpa [hlen'] using htasks_len
    · simp [hres0]
      omega
    · intro i d hd
      have htask := createTaskChain_tasks_get cid name descs ictx t0 m0 i d hd
      obtain ⟨r, hr, hts'⟩ := hget i _ htask
      refine ⟨_, r, hts', hr, ?_, ?_, ?_, ?_⟩ <;> rfl

/-- Witness for C1: a concrete one-task chain whose single capability call
succeeds. -/
theorem executeTaskChain_success_spec_witness :
    (["done"] : List String).length = (["Do something"] : List String).length ∧
    ∃ chain2 : TaskChain String,
      (executeTaskChain capsAllOk 1 demoChainMap "c").1 "c" = some chain2
      ∧ chain2.status = TStatus.completed
      ∧ chain2.completedAt = some 1
      ∧ chain2.results = ["done"]
      ∧ chain2.tasks.length = (["Do something"] : List String).length
      ∧ chain2.results.length = chain2.tasks.length
      ∧ (∀ (i : Nat) (d : String), (["Do something"] : List String)[i]? = some d →
          ∃ (task : AgentTask String) (r : String),
          chain2.tasks[i]? = some task ∧ (["done"] : List String)[i]? = some r
          ∧ task.description = d ∧ task.result = some r ∧ task.status = TStatus.completed
          ∧ task.completedAt = some 1) :=
  executeTaskChain_success_spec capsAllOk "c" "demo" ["Do something"] none 0 1
    (emptyChains String) (executeTaskChain capsAllOk 1 demoChainMap "c").1 ["done"] rfl

/-- C2: when executing a freshly created chain rejects, there is an index `k`
(the first failing task) such that the rejection carries exactly task `k`'s
stored error (non-empty, given that environment failures carry non-empty
messages), tasks before `k` are `completed`, tasks after `k` are still the
untouched `pending` tasks from creation (never attempted), and the chain is
`failed` with `completedAt` stamped. -/
theorem executeTaskChain_failure_spec {V : Type} (caps : Caps V) (cid name : String)
    (descs : List String) (ictx : Option (AgentContext V)) (t0 t1 : Nat) (m0 : ChainMap V)
    (m2 : ChainMap V) (e : String)
    (henv : EnvMsgsNonEmpty caps)
    (hexec : executeTaskChain caps t1 (createTaskChain cid name descs ictx t0 m0).1 cid
      = (m2, Except.error e)) :
    ∃ (chain2 : TaskChain V) (k : Nat), m2 cid = some chain2
      ∧ k < descs.length
      ∧ chain2.status = TStatus.failed
      ∧ chain2.completedAt = some t1
      ∧ chain2.tasks.length = descs.length
      ∧ chain2.results.length = k
      ∧ (∀ (i : Nat) (t : AgentTask V), i < k → chain2.tasks[i]? = some t →
          t.status = TStatus.completed)
      ∧ (∃ tk : AgentTask V, chain2.tasks[k]? = some tk ∧ tk.status = TStatus.failed
          ∧ tk.error = some e ∧ e ≠ "" ∧ tk.completedAt = some t1)
      ∧ (∀ i, k < i → i < descs.length → ∃ t : AgentTask V, chain2.tasks[i]? = some t
          ∧ t.status = TStatus.pending ∧ t.error = none ∧ t.result = none
          ∧ t.completedAt = none) := by
  have hm1 : (createTaskChain cid name descs ictx t0 m0).1 cid
      = some (createTaskChain cid name descs ictx t0 m0).2 := by
    simp [createTaskChain, mapSet]
  unfold executeTaskChain at hexec
  rw [hm1] at hexec
  dsimp only at hexec
  rcases hloop : execLoop caps t1 (createTaskChain cid name descs ictx t0 m0).2.tasks []
    with ⟨ts', acc, err⟩
  rw [hloop] at hexec
  cases err with
  | none =>
    dsimp only at hexec
    simp at hexec
  | some e0 =>
    dsimp only at hexec
    simp only [Prod.mk.injEq, Except.error.injEq] at hexec
    obtain ⟨hm2, he0⟩ := hexec
    subst he0
    obtain ⟨k, rs, tk, hk, hrsk, hacc, hlen1, hpre, htk, htk', hdisj, hsuf⟩ :=
      execLoop_err_inv caps t1 (createTaskChain cid name descs ictx t0 m0).2.tasks
        [] ts' acc e0 hloop
    simp only [List.nil_append] at hacc
    subst hacc
    have htasks_len : (createTaskChain cid name descs ictx t0 m0).2.tasks.length
        = descs.length := by
      simp [createTaskChain]
    have hres0 : (createTaskChain cid name descs ictx t0 m0).2.results = [] := by
      simp [createTaskChain]
    have hne : e0 ≠ "" := by
      rcases hdisj with h1 | ⟨cap, ctx, hc, hr⟩
      · intro hemp
        rw [hemp] at h1
        have hlen := congrArg String.length h1
        rw [String.length_append] at hlen
        have : ("" : String).length = 0 := rfl
        have h19 : ("Unknown task type: " : String).length = 19 := rfl
        omega
      · exact henv _ cap hc ctx none e0 hr
    refine ⟨{ (createTaskChain cid name descs ictx t0 m0).2 with
                tasks := ts'
                results := (createTaskChain cid name descs ictx t0 m0).2.results ++ acc
                status := TStatus.failed
                completedAt := some t1 }, k, ?_, by omega, rfl, rfl, ?_, ?_, ?_, ?_, ?_⟩
    · rw [← hm2]
      simp [mapSet]
    · simpa [hlen1] using htasks_len
    · simp [hres0]
      omega
    · intro i t hik hi
      have hilen : i < (createTaskChain cid name descs ictx t0 m0).2.tasks.length := by omega
      have hit := List.getElem?_eq_getElem hilen
      obtain ⟨r, hr, hts'⟩ := hpre i _ hik hit
      dsimp only at hi
      rw [hts'] at hi
      injection hi with hi
      rw [← hi]
    · refine ⟨_, htk', ?_, ?_, hne, ?_⟩
      · rfl
      · rfl
      · rfl
    · intro i hki hilen
      have hit : (createTaskChain cid name descs ictx t0 m0).2.tasks[i]?
          = some (createTaskChain cid name descs ictx t0 m0).2.tasks[i] :=
        List.getElem?_eq_getElem (by omega)
      have hdesc : descs[i]? = some descs[i] := List.getElem?_eq_getElem (by omega)
      have hcreated := createTaskChain_tasks_get cid name descs ictx t0 m0 i descs[i] hdesc
      refine ⟨{ id := cid ++ "-task-" ++ toString i
                type := inferTaskType descs[i]
                description := descs[i]
                context := ictx.getD {}
                status := TStatus.pending
                createdAt := t0 }, ?_, rfl, rfl, rfl, rfl⟩
      dsimp only
      rw [hsuf i hki, hcreated]

/-- Witness for C2: a concrete two-task chain whose first capability call
rejects with "boom"; the second task is never attempted. -/
theorem executeTaskChain_failure_spec_witness :
    ∃ (chain2 : TaskChain String) (k : Nat),
      (executeTaskChain capsFailGeneral 1 demoChainMapTwo "f").1 "f" = some chain2
      ∧ k < (["Do something", "Do more"] : List String).length
      ∧ chain2.status = TStatus.failed
      ∧ chain2.completedAt = some 1
      ∧ chain2.tasks.length = (["Do something", "Do more"] : List String).length
      ∧ chain2.results.length = k
      ∧ (∀ (i : Nat) (t : AgentTask String), i < k → chain2.tasks[i]? = some t →
          t.status = TStatus.completed)
      ∧ (∃ tk : AgentTask String, chain2.tasks[k]? = some tk ∧ tk.status = TStatus.failed
          ∧ tk.error = some "boom" ∧ "boom" ≠ "" ∧ tk.completedAt = some 1)
      ∧ (∀ i, k < i → i < (["Do something", "Do more"] : List String).length →
          ∃ t : AgentTask String, chain2.tasks[i]? = some t
          ∧ t.status = TStatus.pending ∧ t.error = none ∧ t.result = none
          ∧ t.completedAt = none) :=
  executeTaskChain_failure_spec capsFailGeneral "f" "demo" ["Do something", "Do more"]
    none 0 1 (emptyChains String)
    (executeTaskChain capsFailGeneral 1 demoChainMapTwo "f").1 "boom"
    (by
      intro ty cap hc ctx p e2 he2
      unfold capsFailGeneral at hc
      by_cases hty : ty = "general"
      · rw [if_pos hty] at hc
        injection hc with hcap
        rw [← hcap] at he2
        injection he2 with he2
        rw [← he2]
        decide
      · rw [if_neg hty] at hc
        cases hc)
    rfl

/-- The accumulated results of the task loop are bounded by the completed
tasks it leaves behind (plus whatever was accumulated before). -/
theorem execLoop_acc_le {V : Type} (caps : Caps V) (now : Nat) (ts : List (AgentTask V)) :
    ∀ acc ts' acc' err, execLoop caps now ts acc = (ts', acc', err) →
      acc'.length ≤ countCompleted ts' + acc.length := by
  induction ts with
  | nil =>
    intro acc ts' acc' err h
    simp only [execLoop, Prod.mk.injEq] at h
    obtain ⟨-, h2, -⟩ := h
    subst h2
    omega
  | cons t ts ih =>
    intro acc ts' acc' err h
    simp only [execLoop] at h
    rcases hstep : executeTask caps { t with context := setPreviousResults t.context acc } now
      with ⟨t1, out⟩
    rw [hstep] at h
    cases out with
    | ok r =>
      dsimp only at h
      rcases hrec : execLoop caps now ts (acc ++ [r]) with ⟨ts1, acc1, err1⟩
      rw [hrec] at h
      simp only [Prod.mk.injEq] at h
      obtain ⟨hts, hacc, -⟩ := h
      subst hts
      subst hacc
      have hb := ih (acc ++ [r]) ts1 acc1 err1 hrec
      have ht1 := executeTask_ok_inv hstep
      have hcc : countCompleted (t1 :: ts1) = countCompleted ts1 + 1 := by
        rw [ht1]
        simp [countCompleted, List.filter_cons]
      simp only [List.length_append, List.length_cons, List.length_nil] at hb
      omega
    | error e =>
      dsimp only at h
      simp only [Prod.mk.injEq] at h
      obtain ⟨hts, hacc, -⟩ := h
      subst hts
      subst hacc
      omega

theorem countCompleted_eq_zero_of_allPending {V : Type} {ts : List (AgentTask V)}
    (h : allPending ts) : countCompleted ts = 0 := by
  unfold countCompleted
  rw [List.length_eq_zero, List.filter_eq_nil_iff]
  intro t ht
  rw [h t ht]
  simp

theorem countCompleted_map_cancelTask {V : Type} (now : Nat) (ts : List (AgentTask V)) :
    countCompleted (ts.map (cancelTask now)) = countCompleted ts := by
  induction ts with
  | nil => rfl
  | cons t ts ih =>
    simp only [List.map_cons, countCompleted, List.filter_cons] at ih ⊢
    by_cases hr : t.status = TStatus.running
    · simp [cancelTask, hr, ih]
    · simp only [cancelTask, if_neg hr]
      by_cases hc : t.status = TStatus.completed
      · simp [hc, ih]
      · simp only [beq_iff_eq, if_neg hc]
        exact ih

theorem allPending_of_map_cancelTask {V : Type} {now : Nat} {ts : List (AgentTask V)}
    (h : allPending (ts.map (cancelTask now))) : allPending ts := by
  intro t ht
  have hmem : cancelTask now t ∈ ts.map (cancelTask now) := List.mem_map_of_mem _ ht
  have hp := h _ hmem
  by_cases hr : t.status = TStatus.running
  · rw [cancelTask, if_pos hr] at hp
    cases hp
  · rwa [cancelTask, if_neg hr] at hp

theorem MapInv_create {V : Type} {m : ChainMap V} (hm : MapInv m)
    (cid name : String) (descs : List String) (ictx : Option (AgentContext V)) (now : Nat) :
    MapInv (createTaskChain cid name descs ictx now m).1 := by
  intro cid' c hc
  simp only [createTaskChain, mapSet] at hc
  by_cases hx : cid' = cid
  · rw [if_pos hx] at hc
    injection hc with hc
    subst hc
    exact ⟨by simp [countCompleted], fun _ => rfl⟩
  · rw [if_neg hx] at hc
    exact hm cid' c hc

theorem MapInv_exec {V : Type} {m : ChainMap V} (hm : MapInv m)
    (caps : Caps V) (now : Nat) (cid : String)
    (hfresh : ∀ c, m cid = some c → allPending c.tasks) :
    MapInv (executeTaskChain caps now m cid).1 := by
  unfold executeTaskChain
  cases hc : m cid with
  | none => exact hm
  | some chain =>
    dsimp only
    rcases hloop : execLoop caps now chain.tasks [] with ⟨ts', acc, err⟩
    have hall := hfresh chain hc
    have hres0 : chain.results = [] := (hm cid chain hc).2 hall
    have hbound := execLoop_acc_le caps now chain.tasks [] ts' acc err hloop
    simp only [List.length_nil, Nat.add_zero] at hbound
    have hinv1 : (chain.results ++ acc).length ≤ countCompleted ts' := by
      rw [hres0]
      simpa using hbound
    have hinv2 : allPending ts' → chain.results ++ acc = [] := by
      intro hp
      have h0 := countCompleted_eq_zero_of_allPending hp
      rw [hres0]
      simp only [List.nil_append]
      rw [← List.length_eq_zero]
      omega
    cases err with
    | none =>
      dsimp only
      intro cid' c hget
      simp only [mapSet] at hget
      by_cases hx : cid' = cid
      · rw [if_pos hx] at hget
        injection hget with hget
        subst hget
        exact ⟨hinv1, hinv2⟩
      · rw [if_neg hx] at hget
        exact hm cid' c hget
    | some e =>
      dsimp only
      intro cid' c hget
      simp only [mapSet] at hget
      by_cases hx : cid' = cid
      · rw [if_pos hx] at hget
        injection hget with hget
        subst hget
        exact ⟨hinv1, hinv2⟩
      · rw [if_neg hx] at hget
        exact hm cid' c hget

theorem MapInv_cancel {V : Type} {m : ChainMap V} (hm : MapInv m) (now : Nat) (cid : String) :
    MapInv (cancelTaskChain now m cid).1 := by
  unfold cancelTaskChain
  cases hc : m cid with
  | none => exact hm
  | some chain =>
    dsimp only
    by_cases hs : chain.status = TStatus.running
    · rw [if_pos hs]
      intro cid' c hget
      simp only [mapSet] at hget
      by_cases hx : cid' = cid
      · rw [if_pos hx] at hget
        injection hget with hget
        subst hget
        obtain ⟨h1, h2⟩ := hm cid chain hc
        refine ⟨?_, ?_⟩
        · simpa [countCompleted_map_cancelTask] using h1
        · intro hp
          exact h2 (allPending_of_map_cancelTask hp)
      · rw [if_neg hx] at hget
        exact hm cid' c hget
    · rw [if_neg hs]
      exact hm

theorem MapInv_del {V : Type} {m : ChainMap V} (hm : MapInv m) (cid : String) :
    MapInv (deleteTaskChain m cid).1 := by
  unfold deleteTaskChain
  cases hc : m cid with
  | none => exact hm
  | some chain =>
    dsimp only
    intro cid' c hget
    simp only [mapDel] at hget
    by_cases hx : cid' = cid
    · rw [if_pos hx] at hget
      cases hget
    · rw [if_neg hx] at hget
      exact hm cid' c hget

/-- C3 counterexample: `executeTaskChain` has no guard against re-execution,
so the engine-operation sequence create → execute → execute (on the same
one-task chain, every capability call succeeding) ends at an observation
point where the chain holds 2 results but only 1 completed task — violating
the claimed invariant `results.length ≤ completed count`; the second
execution also re-transitions the tasks of an already-`completed` chain. -/
theorem reexecution_breaks_results_invariant :
    ((demoOpsReexec.foldl applyOp (emptyChains String)) "c").map
        (fun c => (c.results.length, countCompleted c.tasks)) = some (2, 1)
  ∧ ¬ (2 ≤ 1) := by
  exact ⟨by decide, by decide⟩

/-- C3 (amended): the invariant `results.length ≤ completed-task count` holds
for every chain after any sequence of engine operations in which a chain is
executed only while all its tasks are still `pending` (i.e. `executeTaskChain`
is not re-invoked on an already-executed chain), and it also holds at every
suspension point inside a single execution; moreover `cancelTaskChain` on a
chain already `completed` or `failed` returns false and leaves the store
untouched, so task statuses of terminal chains are frozen under every
operation except re-execution — re-executing a terminal chain re-runs its
tasks and can break both freezing and the result bound. -/
theorem engine_invariant_spec {V : Type} :
    (∀ (m : ChainMap V) (ops : List (EngineOp V)), MapInv m → WfOps m ops →
        MapInv (ops.foldl applyOp m))
  ∧ (∀ (caps : Caps V) (now : Nat) (ts : List (AgentTask V)) (acc : List V)
        (s : List (AgentTask V) × List V), s ∈ execTrace caps now ts acc →
        s.2.length ≤ countCompleted s.1 + acc.length)
  ∧ (∀ (now : Nat) (m : ChainMap V) (cid : String) (c : TaskChain V), m cid = some c →
        (c.status = TStatus.completed ∨ c.status = TStatus.failed) →
        cancelTaskChain now m cid = (m, false)) := by
  refine ⟨?_, ?_, ?_⟩
  · intro m ops
    induction ops generalizing m with
    | nil =>
      intro hm _
      exact hm
    | cons op ops ih =>
      intro hm hwf
      cases hwf with
      | cons _ _ _ hop hops =>
        rw [List.foldl_cons]
        refine ih (applyOp m op) ?_ hops
        cases op with
        | create cid name descs ictx now => exact MapInv_create hm cid name descs ictx now
        | exec cid caps now => exact MapInv_exec hm caps now cid hop
        | cancel cid now => exact MapInv_cancel hm now cid
        | del cid => exact MapInv_del hm cid
  · intro caps now ts
    induction ts with
    | nil =>
      intro acc s hs
      simp [execTrace] at hs
    | cons t ts ih =>
      intro acc s hs
      simp only [execTrace] at hs
      rw [List.mem_cons] at hs
      rcases hs with hs | hs
      · subst hs
        simp only
        omega
      · rcases hb : executeTaskBody caps
            { t with context := setPreviousResults t.context acc, status := TStatus.running } now
          with ⟨t2, out⟩
        rw [hb] at hs
        cases out with
        | error e =>
          dsimp only at hs
          simp at hs
        | ok r =>
          dsimp only at hs
          simp only [List.mem_map] at hs
          obtain ⟨s0, hs0, hmap⟩ := hs
          subst hmap
          have hbnd := ih (acc ++ [r]) s0 hs0
          have ht2 := executeTaskBody_ok_inv hb
          have hcc : countCompleted (t2 :: s0.1) = countCompleted s0.1 + 1 := by
            rw [ht2]
            simp [countCompleted, List.filter_cons]
          simp only [List.length_append, List.length_cons, List.length_nil] at hbnd
          simp only [hcc]
          omega
  · intro now m cid c hc hterm
    unfold cancelTaskChain
    rw [hc]
    dsimp only
    have hne : ¬ c.status = TStatus.running := by
      rcases hterm with h1 | h1 <;> rw [h1] <;> intro h <;> cases h
    rw [if_neg hne]

/-- Witness for C3: a create-then-execute sequence establishes the invariant;
the first suspension-point state of a one-task trace satisfies the bound; and
cancelling a concrete completed chain is a no-op returning false. -/
theorem engine_invariant_spec_witness :
    MapInv (demoOps.foldl applyOp (emptyChains String))
  ∧ traceSampleState.2.length ≤ countCompleted traceSampleState.1 + ([] : List String).length
  ∧ cancelTaskChain 9 completedChainMap "k" = (completedChainMap, false) :=
  ⟨(engine_invariant_spec (V := String)).1 (emptyChains String) demoOps
      (by intro cid c hc; cases hc)
      (WfOps.cons _ _ _ trivial
        (WfOps.cons _ _ _
          (by
            intro c hc
            simp only [applyOp, createTaskChain, mapSet, if_pos] at hc
            injection hc with hc
            subst hc
            unfold allPending
            decide)
          (WfOps.nil _))),
   (engine_invariant_spec (V := String)).2.1 capsAllOk 1 [sampleTaskGeneral] []
      traceSampleState (by decide),
   (engine_invariant_spec (V := String)).2.2 9 completedChainMap "k" completedChain rfl
      (Or.inl rfl)⟩

/-- C8 (code-bug evaluation): `applyFixes` formats the issue descriptions,
but `BaseAgent.executeTask` accepts only the task and invokes the capability
with no parameters, so on the concrete input `code = "x=1"` with the single
issue `error: m (Line 1)` the prompt that reaches the provider has an empty
`Issues:` section and does not contain the formatted issue description —
contradicting the claimed behaviour (and the `fix` capability's own
`parameters` contract, which `applyFixes` visibly tries to use). -/
theorem applyFixes_issue_section_empty :
    issueDescriptions [{ severity := "error", message := "m", line := 1 }]
      = ["error: m (Line 1)"]
  ∧ (applyFixes lastContentProvider "x=1"
        [{ severity := "error", message := "m", line := 1 }] 0).2
      = Except.ok "Fix the following issues in the code:\nIssues: \n\nOriginal Code:\nx=1\n\nProvide the corrected code with explanations for each fix."
  ∧ includesSub "Fix the following issues in the code:\nIssues: \n\nOriginal Code:\nx=1\n\nProvide the corrected code with explanations for each fix."
      "error: m (Line 1)" = false := by
  refine ⟨by decide, ?_, ?_⟩
  · set_option maxRecDepth 10000 in decide
  · set_option maxRecDepth 10000 in decide
